import Mathlib

/-!
Verification development for the ferrite signing adapter
(`ferrite/account.py`, `ferrite/__init__.py`).

The Python source is shallowly embedded: byte strings become `List Nat`,
Python dicts become association lists, fallible operations return
`Except PyError`, and the opaque Rust backend (`_ferrite`) is a function
parameter.  Logging calls have no observable effect on values and are
elided; a `try/except` block that logs and bare-`raise`s is the identity
on the error path of `Except`.
-/

namespace Ferrite

/-- A Python `bytes` value: a sequence of byte values. -/
abbrev Bytes := List Nat

/-- The Python exceptions that the adapter code can raise or propagate.
`valueError` is raised by `bytes.fromhex` on malformed hex;
`keyError` by a dict subscript on a missing key (the spec's
`ReconstructionError` condition); `backendError` stands for any
exception coming out of the opaque Rust backend. -/
inductive PyError where
  | valueError (msg : String)
  | keyError (key : String)
  | typeError (msg : String)
  | backendError (code : Nat)
  deriving DecidableEq, Repr

/-- The error `bytes.fromhex` raises on a non-hex character or a dangling
hex digit (positions are not tracked in this model). -/
def fromhexError : PyError :=
  PyError.valueError "non-hexadecimal number found in fromhex() arg"

/-- CPython `Py_ISSPACE`: the six ASCII whitespace characters
`bytes.fromhex` skips between bytes. -/
def isPySpace (c : Char) : Bool :=
  c = ' ' || c = '\t' || c = '\n' || c = '\x0b' || c = '\x0c' || c = '\r'

/-- ASCII hexadecimal digit test. -/
def isHexDigit (c : Char) : Bool :=
  (('0' ≤ c && c ≤ '9') || ('a' ≤ c && c ≤ 'f') || ('A' ≤ c && c ≤ 'F'))

/-- Numeric value of an ASCII hex digit. -/
def hexVal (c : Char) : Nat :=
  if '0' ≤ c && c ≤ '9' then c.toNat - 48
  else if 'a' ≤ c && c ≤ 'f' then c.toNat - 87
  else c.toNat - 55

/-- Python `bytes.fromhex` (CPython >= 3.7): ASCII whitespace is skipped
before each byte, then two hex digits are consumed with no whitespace
between them; any other character, or a dangling single digit, raises
`ValueError`. -/
def fromhex : List Char → Except PyError Bytes
  | [] => .ok []
  | c :: rest =>
    if isPySpace c then fromhex rest
    else if isHexDigit c then
      match rest with
      | [] => .error fromhexError
      | c2 :: rest2 =>
        if isHexDigit c2 then
          match fromhex rest2 with
          | .ok bs => .ok ((16 * hexVal c + hexVal c2) :: bs)
          | .error e => .error e
        else .error fromhexError
    else .error fromhexError

/-- A private key argument as the wrappers receive it: a `str`, or a
`bytes`/`bytearray` buffer. -/
inductive KeyInput where
  | str (s : String)
  | bytes (b : Bytes)
  deriving DecidableEq, Repr

/-- `private_key[2:]` after a positive `private_key.startswith("0x")`
test (`account.py` lines 43-44). -/
def strip0x : List Char → List Char
  | c1 :: c2 :: rest => if c1 = '0' && c2 = 'x' then rest else c1 :: c2 :: rest
  | cs => cs

/-- Key normalization as performed inline by the `Account`-level wrappers
(`account.py` lines 40-45): a byte buffer passes through unchanged, a
string is stripped of an optional `0x` prefix and hex-decoded.  No length
check is performed. -/
def normalizeKey : KeyInput → Except PyError Bytes
  | .bytes b => .ok b
  | .str s => fromhex (strip0x s.data)

/-- The raw dict returned by the Rust backend functions.  A field holding
`none` models a dict in which that key is absent. -/
structure RustResponse where
  r : Option Bytes
  s : Option Bytes
  v : Option Int
  signature : Option Bytes
  rawTransaction : Option Bytes
  hash : Option Bytes
  deriving DecidableEq, Repr

/-- Python dict subscript `d[key]`: raises `KeyError(key)` when absent. -/
def getItem {α : Type} (o : Option α) (key : String) : Except PyError α :=
  match o with
  | some x => .ok x
  | none => .error (PyError.keyError key)

/-- `int.from_bytes(bs, "big")`. -/
def intFromBytesBE (bs : Bytes) : Nat :=
  bs.foldl (fun acc b => 256 * acc + b) 0

/-- Positional big-endian value of a byte string (the textbook
specification that `int.from_bytes(bs, "big")` is meant to compute). -/
def bigEndianVal : Bytes → Nat
  | [] => 0
  | b :: bs => b * 256 ^ bs.length + bigEndianVal bs

/-- `eth_account.datastructures.SignedMessage` as built by the wrappers. -/
structure SignedMessage where
  message_hash : Bytes
  r : Nat
  s : Nat
  v : Int
  signature : Bytes
  deriving DecidableEq, Repr

/-- `eth_account.datastructures.SignedTransaction` as built by the
transaction wrappers. -/
structure SignedTransaction where
  raw_transaction : Bytes
  hash : Bytes
  r : Nat
  s : Nat
  v : Int
  deriving DecidableEq, Repr

/-- Construction of a `SignedMessage` from the backend dict
(`account.py` lines 25-31): the keyword arguments are evaluated in
source order, so the first missing key raises. -/
def reconstructSignedMessage (message_hash : Bytes) (d : RustResponse) :
    Except PyError SignedMessage := do
  let rb ← getItem d.r "r"
  let sb ← getItem d.s "s"
  let vv ← getItem d.v "v"
  let sig ← getItem d.signature "signature"
  return ⟨message_hash, intFromBytesBE rb, intFromBytesBE sb, vv, sig⟩

/-- Construction of a `SignedTransaction` from the backend dict
(`account.py` lines 142-148). -/
def reconstructSignedTransaction (d : RustResponse) :
    Except PyError SignedTransaction := do
  let raw ← getItem d.rawTransaction "rawTransaction"
  let h ← getItem d.hash "hash"
  let rb ← getItem d.r "r"
  let sb ← getItem d.s "s"
  let vv ← getItem d.v "v"
  return ⟨raw, h, intFromBytesBE rb, intFromBytesBE sb, vv⟩

/-- A Python value as handled by `json.dumps` (the fragment the adapter
serializes: the typed-data payload and sanitized transaction dicts).
Objects keep their fields as an ordered list, matching the insertion
order of a Python dict. -/
inductive Json where
  | jnull
  | jbool (b : Bool)
  | jnum (n : Int)
  | jstr (s : String)
  | jarr (xs : List Json)
  | jobj (kvs : List (String × Json))

/-- JSON string escaping (quote and backslash; control characters and
non-ASCII escapes are outside the fragment exercised here). -/
def jsonEscapeChar (c : Char) : String :=
  if c = '"' then "\\\"" else if c = '\\' then "\\\\" else String.singleton c

def jsonQuote (s : String) : String :=
  "\"" ++ String.join (s.data.map jsonEscapeChar) ++ "\""

mutual
/-- Python `json.dumps` with default arguments: separators `", "` and
`": "`, and dict members emitted in the dict's own (insertion) order —
`sort_keys` is off, so no reordering happens. -/
def jsonDumps : Json → String
  | .jnull => "null"
  | .jbool b => if b then "true" else "false"
  | .jnum n => toString n
  | .jstr s => jsonQuote s
  | .jarr xs => "[" ++ String.intercalate ", " (jsonDumpsList xs) ++ "]"
  | .jobj kvs => "\x7b" ++ String.intercalate ", " (jsonDumpsMembers kvs) ++ "\x7d"

def jsonDumpsList : List Json → List String
  | [] => []
  | x :: xs => jsonDumps x :: jsonDumpsList xs

def jsonDumpsMembers : List (String × Json) → List String
  | [] => []
  | (k, v) :: rest => (jsonQuote k ++ ": " ++ jsonDumps v) :: jsonDumpsMembers rest
end

/-- A transaction dict value: an `int`, a `str`, some other
JSON-serializable value (carried as its JSON form), or a value
`json.dumps` cannot serialize (e.g. a `set`), on which serialization
raises `TypeError`.  The sanitizer ignores the last two kinds. -/
inductive Value where
  | vint (n : Int)
  | vstr (s : String)
  | vother (j : Json)
  | vbad (tag : Nat)

/-- A Python dict with string keys, as an insertion-ordered association
list (a real dict has no duplicate keys; lookups below take the first
match, as Python would the only one). -/
abbrev Fields := List (String × Value)

/-- First-match association-list lookup, over any key type. -/
def alookup {κ β : Type} [DecidableEq κ] : List (κ × β) → κ → Option β
  | [], _ => none
  | (k, v) :: rest, key => if k = key then some v else alookup rest key

/-- Assignment `d[k] = v` to a key already present: rewrites the value
at `k`, leaving keys and their order untouched. -/
def aset {κ β : Type} [DecidableEq κ] (t : List (κ × β)) (key : κ) (v : β) :
    List (κ × β) :=
  t.map fun e => if e.1 = key then (e.1, v) else e

/-- Python `hex` on a nonnegative integer: `"0x"` plus lowercase hex
digits, `hex(0) = "0x0"`. -/
def pyHexNat (n : Nat) : String :=
  "0x" ++ String.mk (Nat.toDigits 16 n)

/-- Python `hex` on an arbitrary integer (negatives get a leading "-"). -/
def pyHex (n : Int) : String :=
  if n < 0 then "-" ++ pyHexNat n.natAbs else pyHexNat n.toNat

/-- `val.startswith("0x")`. -/
def startsWith0x (s : String) : Bool :=
  match s.data with
  | '0' :: 'x' :: _ => true
  | _ => false

/-- `val.isdigit()` on the ASCII fragment: nonempty and all decimal
digits. -/
def strIsDigit (s : String) : Bool :=
  !s.data.isEmpty && s.data.all fun c => '0' ≤ c && c ≤ '9'

/-- `int(val)` for a digit-only string. -/
def decNat (cs : List Char) : Nat :=
  cs.foldl (fun acc c => 10 * acc + (c.toNat - 48)) 0

/-- The allow-list of numeric transaction fields (`account.py` lines
112-120). -/
def fields_to_hex : List String :=
  ["value", "gas", "gasPrice", "maxFeePerGas", "maxPriorityFeePerGas",
   "nonce", "chainId"]

/-- One iteration of the sanitizer loop (`account.py` lines 122-128):
if `field` is present, an `int` value becomes `hex(val)` and a
digit-only string not starting with `"0x"` becomes `hex(int(val))`;
everything else is left alone. -/
def sanitizeStep (d : Fields) (field : String) : Fields :=
  match alookup d field with
  | none => d
  | some val =>
    match val with
    | .vint n => aset d field (.vstr (pyHex n))
    | .vstr s =>
      if !startsWith0x s && strIsDigit s then
        aset d field (.vstr (pyHexNat (decNat s.data)))
      else d
    | .vother _ => d
    | .vbad _ => d

/-- `_sanitize_transaction` (`account.py` lines 106-130) viewed as a pure
function on the dict contents: copy, then run the loop over the
allow-list.  (The copy/no-mutation aspect is modelled separately with an
explicit store, see `sanitizeTransactionProg`.) -/
def sanitize_transaction (d : Fields) : Fields :=
  fields_to_hex.foldl sanitizeStep d

/-- The error `json.dumps` raises on a value it cannot serialize. -/
def notSerializableError : PyError :=
  PyError.typeError "Object is not JSON serializable"

/-- The JSON image of a transaction dict value, as `json.dumps` computes
it: a `vbad` value raises `TypeError`. -/
def valueToJson : Value → Except PyError Json
  | .vint n => .ok (.jnum n)
  | .vstr s => .ok (.jstr s)
  | .vother j => .ok j
  | .vbad _ => .error notSerializableError

def fieldsToJson (d : Fields) : Except PyError Json := do
  let kvs ← d.mapM fun kv => do
    let j ← valueToJson kv.2
    pure (kv.1, j)
  pure (.jobj kvs)

/-- `json.dumps` applied to a transaction dict: serialize every value
(raising `TypeError` at the first non-serializable one) and emit the
canonical string. -/
def json_dumps_fields (d : Fields) : Except PyError String := do
  let j ← fieldsToJson d
  pure (jsonDumps j)

/-- An arbitrary Python object handed to `json.dumps` as a typed-data
payload: either it lies in the serializable fragment (with its `Json`
image) or it contains a non-serializable value somewhere, in which case
`json.dumps` raises `TypeError`.  Only this dichotomy is observable
through the adapter. -/
inductive PyAny where
  | py (j : Json)
  | unserializable (tag : Nat)

/-- `json.dumps` on an arbitrary typed-data payload. -/
def json_dumps : PyAny → Except PyError String
  | .py j => .ok (jsonDumps j)
  | .unserializable _ => .error notSerializableError

/-- The opaque `_ferrite` Rust extension module: three signing functions
returning raw response dicts.  Wrappers are parameterized over it. -/
structure RustBackend where
  sign_hash : Bytes → Bytes → Except PyError RustResponse
  sign_typed_data : String → Bytes → Except PyError RustResponse
  sign_transaction : String → Bytes → Except PyError RustResponse

/-- A `LocalAccount` instance: `self.key` is the account's 32-byte key
(already bytes; the instance-bound wrappers use it untouched). -/
structure LocalAccount where
  key : Bytes

/-- `_sign_hash_wrapper` (`account.py` lines 20-34). -/
def sign_hash_wrapper (be : RustBackend) (self : LocalAccount)
    (message_hash : Bytes) : Except PyError SignedMessage := do
  let d ← be.sign_hash message_hash self.key
  reconstructSignedMessage message_hash d

/-- `_account_sign_hash_wrapper` (`account.py` lines 37-58). -/
def account_sign_hash_wrapper (be : RustBackend) (message_hash : Bytes)
    (private_key : KeyInput) : Except PyError SignedMessage := do
  let pkb ← normalizeKey private_key
  let d ← be.sign_hash message_hash pkb
  reconstructSignedMessage message_hash d

/-- `_sign_typed_data_wrapper` (`account.py` lines 61-76): serializes the
payload with `json.dumps` and builds the result with
`message_hash = HexBytes(b"")`, the empty byte string. -/
def sign_typed_data_wrapper (be : RustBackend) (self : LocalAccount)
    (full_message : PyAny) : Except PyError SignedMessage := do
  let payload ← json_dumps full_message
  let d ← be.sign_typed_data payload self.key
  reconstructSignedMessage [] d

/-- `_account_sign_typed_data_wrapper` (`account.py` lines 79-103). -/
def account_sign_typed_data_wrapper (be : RustBackend)
    (private_key : KeyInput) (full_message : PyAny) :
    Except PyError SignedMessage := do
  let pkb ← normalizeKey private_key
  let payload ← json_dumps full_message
  let d ← be.sign_typed_data payload pkb
  reconstructSignedMessage [] d

/-- `_sign_transaction_wrapper` (`account.py` lines 133-151). -/
def sign_transaction_wrapper (be : RustBackend) (self : LocalAccount)
    (transaction_dict : Fields) : Except PyError SignedTransaction := do
  let payload ← json_dumps_fields (sanitize_transaction transaction_dict)
  let d ← be.sign_transaction payload self.key
  reconstructSignedTransaction d

/-- `_account_sign_transaction_wrapper` (`account.py` lines 154-181). -/
def account_sign_transaction_wrapper (be : RustBackend)
    (transaction_dict : Fields) (private_key : KeyInput) :
    Except PyError SignedTransaction := do
  let pkb ← normalizeKey private_key
  let payload ← json_dumps_fields (sanitize_transaction transaction_dict)
  let d ← be.sign_transaction payload pkb
  reconstructSignedTransaction d

/-- The function objects `patch_eth_account` binds: symbolic tags for the
six module-level wrapper functions, plus a tag for whatever handler a
class attribute held before patching. -/
inductive Handler where
  | hSignHash
  | hAccountSignHash
  | hSignTypedData
  | hAccountSignTypedData
  | hSignTransaction
  | hAccountSignTransaction
  | original (ns attr : String) (tag : Nat)
  deriving DecidableEq, Repr

/-- The process-wide dispatch state touched by `setattr`: the class dicts
of `LocalAccount` and `Account`, keyed by (class name, attribute name). -/
abbrev DispatchTable := List ((String × String) × Handler)

/-- Insert-or-overwrite at a key: Python's `setattr` / dict item
assignment when the key may be absent. -/
def aupsert {κ β : Type} [DecidableEq κ] (t : List (κ × β)) (k : κ) (v : β) :
    List (κ × β) :=
  if t.any (fun e => e.1 = k) then aset t k v else t ++ [(k, v)]

/-- `setattr(ns, attr, h)`: overwrite the attribute if present, add it
otherwise.  Either way the slot ends up holding exactly `h` — the new
binding is a constant function object, not a wrap of the old one. -/
def setattrTable (t : DispatchTable) (ns attr : String) (h : Handler) :
    DispatchTable :=
  aupsert t (ns, attr) h

/-- The six (class, attribute, replacement) bindings of
`patch_eth_account`, in source order (`account.py` lines 189-196). -/
def patchBindings : List ((String × String) × Handler) :=
  [(("LocalAccount", "_sign_hash"), .hSignHash),
   (("Account", "_sign_hash"), .hAccountSignHash),
   (("LocalAccount", "sign_typed_data"), .hSignTypedData),
   (("Account", "sign_typed_data"), .hAccountSignTypedData),
   (("LocalAccount", "sign_transaction"), .hSignTransaction),
   (("Account", "sign_transaction"), .hAccountSignTransaction)]

/-- `patch_eth_account` (`account.py` lines 184-201): six `setattr`
calls in order.  This is also the whole effect of the import-time
`_apply_patch` entry point once `eth_account` is loaded. -/
def patch_eth_account (t : DispatchTable) : DispatchTable :=
  patchBindings.foldl (fun acc b => setattrTable acc b.1.1 b.1.2 b.2) t

/-- A heap of dict objects; a dict reference is an index into the list.
Used to model Python's aliasing: `_sanitize_transaction` mutates only the
fresh dict created by `transaction_dict.copy()`. -/
structure Store where
  dicts : List Fields

def storeGet (st : Store) (ref : Nat) : Fields :=
  st.dicts.getD ref []

def storeSet (st : Store) (ref : Nat) (d : Fields) : Store :=
  ⟨st.dicts.set ref d⟩

/-- `transaction_dict.copy()` (`account.py` line 111): allocate a fresh
dict object holding the same entries, and return its reference. -/
def dictCopyAlloc (st : Store) (ref : Nat) : Store × Nat :=
  (⟨st.dicts ++ [storeGet st ref]⟩, st.dicts.length)

/-- One loop iteration of `_sanitize_transaction`, acting in place on the
dict at `ref`. -/
def setItemStep (st : Store) (ref : Nat) (field : String) : Store :=
  storeSet st ref (sanitizeStep (storeGet st ref) field)

/-- `_sanitize_transaction` (`account.py` lines 106-130) with its real
effects: copy the argument dict, mutate only the copy in the loop, and
return the copy's reference. -/
def sanitizeTransactionProg (st : Store) (ref : Nat) : Store × Nat :=
  let alloc := dictCopyAlloc st ref
  (fields_to_hex.foldl (fun s f => setItemStep s alloc.2 f) alloc.1, alloc.2)

/-- The per-field conversion `_sanitize_transaction` applies to one
allow-listed value: integers become `hex(n)`, digit-only strings become
`hex(int(s))`, everything else is returned as-is. -/
def convertVal : Value → Value
  | .vint n => .vstr (pyHex n)
  | .vstr s =>
    if !startsWith0x s && strIsDigit s then .vstr (pyHexNat (decNat s.data))
    else .vstr s
  | .vother j => .vother j
  | .vbad t => .vbad t

/-- Did the computation fail with a `KeyError` (the missing-dict-key
condition the spec calls `ReconstructionError`)? -/
def isMissingKeyError {α : Type} : Except PyError α → Bool
  | .error (.keyError _) => true
  | _ => false

/-- A fully-populated backend response, for concrete instantiations. -/
def fullResponse : RustResponse :=
  ⟨some [1], some [2], some 27, some (List.replicate 65 3), some [4], some [5]⟩

/-- A backend returning `fullResponse` on every call. -/
def constBackend : RustBackend :=
  ⟨fun _ _ => .ok fullResponse, fun _ _ => .ok fullResponse,
   fun _ _ => .ok fullResponse⟩

/-- A backend response with the `signature` key absent. -/
def missingSigResponse : RustResponse :=
  ⟨some [1], some [2], some 27, none, none, none⟩

/-- A backend whose responses lack the `signature` key. -/
def missingSigBackend : RustBackend :=
  ⟨fun _ _ => .ok missingSigResponse, fun _ _ => .ok missingSigResponse,
   fun _ _ => .ok missingSigResponse⟩

/-- A backend that fails every call with the same `backendError`. -/
def failingBackend : RustBackend :=
  ⟨fun _ _ => .error (.backendError 99), fun _ _ => .error (.backendError 99),
   fun _ _ => .error (.backendError 99)⟩

/-- A backend that echoes the key bytes it received in the `r` field:
its responses witness exactly which key material reached the backend. -/
def keyEchoBackend : RustBackend :=
  ⟨fun _ kb => .ok ⟨some kb, some [0], some 27, some [], none, none⟩,
   fun _ kb => .ok ⟨some kb, some [0], some 27, some [], none, none⟩,
   fun _ kb => .ok ⟨some kb, some [0], some 27, some [], none, none⟩⟩

/-- A one-dict store for concrete instantiations of the copy-semantics
program. -/
def demoStore : Store :=
  ⟨[[("value", Value.vint 100)]]⟩

/-! ### Helper lemmas -/

lemma except_bind_ok {α β ε : Type} (x : α) (f : α → Except ε β) :
    (Except.ok x >>= f) = f x := rfl

lemma except_bind_error {α β ε : Type} (e : ε) (f : α → Except ε β) :
    ((Except.error e : Except ε α) >>= f) = .error e := rfl

lemma intFromBytesBE_acc (bs : Bytes) :
    ∀ a : Nat, bs.foldl (fun acc b => 256 * acc + b) a =
      a * 256 ^ bs.length + bigEndianVal bs := by
  induction bs with
  | nil => intro a; simp [bigEndianVal]
  | cons b bs ih =>
    intro a
    simp only [List.foldl_cons, bigEndianVal, ih, List.length_cons]
    ring

lemma intFromBytesBE_eq (bs : Bytes) : intFromBytesBE bs = bigEndianVal bs := by
  simpa using intFromBytesBE_acc bs 0

lemma reconstruct_message_hash (mh : Bytes) (d : RustResponse)
    (res : SignedMessage) (h : reconstructSignedMessage mh d = .ok res) :
    res.message_hash = mh := by
  obtain ⟨r₀, s₀, v₀, g₀, raw₀, h₀⟩ := d
  cases r₀ <;> cases s₀ <;> cases v₀ <;> cases g₀ <;>
    simp_all [reconstructSignedMessage, getItem, except_bind_ok,
      except_bind_error]
  exact ((SignedMessage.mk.injEq ..).mp h.symm).1

/-! ### Claim theorems -/

/-- C6: for every well-formed backend response the reconstructed result
has `r` and `s` equal to the big-endian unsigned-integer decoding of the
backend's byte fields (`intFromBytesBE`, shown equal to the positional
specification `bigEndianVal`), `v` passed through unmodified, and — for
transactions — `rawTransaction` and `hash` carried through unmodified. -/
theorem reconstruction_faithful (mh rb sb sig raw hsh : Bytes) (vv : Int)
    (o₁ o₂ : Option Bytes) :
    reconstructSignedMessage mh ⟨some rb, some sb, some vv, some sig, o₁, o₂⟩ =
      .ok ⟨mh, intFromBytesBE rb, intFromBytesBE sb, vv, sig⟩ ∧
    reconstructSignedTransaction
        ⟨some rb, some sb, some vv, some sig, some raw, some hsh⟩ =
      .ok ⟨raw, hsh, intFromBytesBE rb, intFromBytesBE sb, vv⟩ ∧
    ∀ bs : Bytes, intFromBytesBE bs = bigEndianVal bs :=
  ⟨rfl, rfl, intFromBytesBE_eq⟩

/-- C5: a backend response missing any expected key makes result
reconstruction fail with the missing-key error (`KeyError`, the spec's
`ReconstructionError` condition); no default is substituted and the
caller of the patched call-site never receives a result object. -/
theorem missing_key_fails (mh : Bytes) (resp : RustResponse)
    (be : RustBackend) (self : LocalAccount)
    (hmiss : resp.r = none ∨ resp.s = none ∨ resp.v = none ∨
      resp.signature = none) :
    isMissingKeyError (reconstructSignedMessage mh resp) = true ∧
    (be.sign_hash mh self.key = .ok resp →
      isMissingKeyError (sign_hash_wrapper be self mh) = true) := by
  have main : isMissingKeyError (reconstructSignedMessage mh resp) = true := by
    obtain ⟨r₀, s₀, v₀, g₀, raw₀, h₀⟩ := resp
    cases r₀ <;> cases s₀ <;> cases v₀ <;> cases g₀ <;>
      simp_all [reconstructSignedMessage, getItem, except_bind_ok,
        except_bind_error, isMissingKeyError]
  refine ⟨main, fun hbe => ?_⟩
  unfold sign_hash_wrapper
  rw [hbe, except_bind_ok]
  exact main

/-- Witness for C5 at a response lacking the `signature` key. -/
theorem missing_key_fails_witness :
    (missingSigResponse.r = none ∨ missingSigResponse.s = none ∨
      missingSigResponse.v = none ∨ missingSigResponse.signature = none) ∧
    isMissingKeyError (sign_hash_wrapper missingSigBackend ⟨[7]⟩ []) = true :=
  ⟨by decide,
   (missing_key_fails [] missingSigResponse missingSigBackend ⟨[7]⟩
      (by decide)).2 rfl⟩

/-- C10: a successful typed-data signing call through either patched
typed-data call-site returns a result whose `message_hash` is the empty
byte string, while hash signing returns the input hash as
`message_hash`. -/
theorem typed_data_message_hash_empty (be : RustBackend)
    (self : LocalAccount) (pk : KeyInput) (msg : PyAny) (mh : Bytes)
    (res₁ res₂ res₃ : SignedMessage) :
    (sign_typed_data_wrapper be self msg = .ok res₁ →
      res₁.message_hash = []) ∧
    (account_sign_typed_data_wrapper be pk msg = .ok res₂ →
      res₂.message_hash = []) ∧
    (sign_hash_wrapper be self mh = .ok res₃ → res₃.message_hash = mh) := by
  refine ⟨fun h₁ => ?_, fun h₂ => ?_, fun h₃ => ?_⟩
  · unfold sign_typed_data_wrapper at h₁
    cases hjd : json_dumps msg with
    | error e => rw [hjd, except_bind_error] at h₁; cases h₁
    | ok p =>
      rw [hjd, except_bind_ok] at h₁
      cases hbe : be.sign_typed_data p self.key with
      | error e => rw [hbe, except_bind_error] at h₁; cases h₁
      | ok d =>
        rw [hbe, except_bind_ok] at h₁
        exact reconstruct_message_hash _ _ _ h₁
  · unfold account_sign_typed_data_wrapper at h₂
    cases hk : normalizeKey pk with
    | error e => rw [hk, except_bind_error] at h₂; cases h₂
    | ok kb =>
      rw [hk, except_bind_ok] at h₂
      cases hjd : json_dumps msg with
      | error e => rw [hjd, except_bind_error] at h₂; cases h₂
      | ok p =>
        rw [hjd, except_bind_ok] at h₂
        cases hbe : be.sign_typed_data p kb with
        | error e => rw [hbe, except_bind_error] at h₂; cases h₂
        | ok d =>
          rw [hbe, except_bind_ok] at h₂
          exact reconstruct_message_hash _ _ _ h₂
  · unfold sign_hash_wrapper at h₃
    cases hbe : be.sign_hash mh self.key with
    | error e => rw [hbe, except_bind_error] at h₃; cases h₃
    | ok d =>
      rw [hbe, except_bind_ok] at h₃
      exact reconstruct_message_hash _ _ _ h₃

/-- Witness for C10: a concrete successful typed-data call whose result
carries the empty `message_hash`. -/
theorem typed_data_message_hash_empty_witness :
    sign_typed_data_wrapper constBackend ⟨[9]⟩ (.py Json.jnull) =
      .ok ⟨[], 1, 2, 27, List.replicate 65 3⟩ ∧
    (SignedMessage.mk [] 1 2 27 (List.replicate 65 3)).message_hash = [] :=
  ⟨rfl,
   (typed_data_message_hash_empty constBackend ⟨[9]⟩ (.bytes [8])
      (.py Json.jnull) []
      ⟨[], 1, 2, 27, List.replicate 65 3⟩ ⟨[], 1, 2, 27, List.replicate 65 3⟩
      ⟨[], 1, 2, 27, List.replicate 65 3⟩).1 rfl⟩

/-- C4: payload canonicalization is deterministic — logically identical
typed-data inputs always serialize to the identical canonical string —
and the field order of a mapping is faithfully preserved, not
re-canonicalized: two objects with the same fields in different orders
serialize differently. -/
theorem canonicalization_deterministic :
    (∀ m₁ m₂ : Json, m₁ = m₂ → jsonDumps m₁ = jsonDumps m₂) ∧
    jsonDumps (Json.jobj [("a", Json.jnum 1), ("b", Json.jnum 2)]) ≠
      jsonDumps (Json.jobj [("b", Json.jnum 2), ("a", Json.jnum 1)]) :=
  ⟨fun _ _ h => h ▸ rfl, by decide⟩

/-- Witness for C4 at a concrete payload. -/
theorem canonicalization_deterministic_witness :
    jsonDumps Json.jnull = jsonDumps Json.jnull :=
  canonicalization_deterministic.1 Json.jnull Json.jnull rfl

/-- C9: every one of the six patched call-sites re-raises the original
error condition verbatim — whichever step fails first (key
normalization, payload serialization, or the backend call), the wrapper
returns exactly that error, never a different one (the `except` blocks
only log and bare-`raise`).  One conjunct per call-site and fallible
step, in the evaluation order of the source. -/
theorem errors_propagate_verbatim (be : RustBackend) (self : LocalAccount)
    (mh : Bytes) (pk : KeyInput) (msg : PyAny) (tx : Fields) (e : PyError) :
    (be.sign_hash mh self.key = .error e →
      sign_hash_wrapper be self mh = .error e) ∧
    (normalizeKey pk = .error e →
      account_sign_hash_wrapper be mh pk = .error e) ∧
    (∀ kb, normalizeKey pk = .ok kb → be.sign_hash mh kb = .error e →
      account_sign_hash_wrapper be mh pk = .error e) ∧
    (json_dumps msg = .error e →
      sign_typed_data_wrapper be self msg = .error e) ∧
    (∀ p, json_dumps msg = .ok p → be.sign_typed_data p self.key = .error e →
      sign_typed_data_wrapper be self msg = .error e) ∧
    (normalizeKey pk = .error e →
      account_sign_typed_data_wrapper be pk msg = .error e) ∧
    (∀ kb, normalizeKey pk = .ok kb → json_dumps msg = .error e →
      account_sign_typed_data_wrapper be pk msg = .error e) ∧
    (∀ kb p, normalizeKey pk = .ok kb → json_dumps msg = .ok p →
      be.sign_typed_data p kb = .error e →
      account_sign_typed_data_wrapper be pk msg = .error e) ∧
    (json_dumps_fields (sanitize_transaction tx) = .error e →
      sign_transaction_wrapper be self tx = .error e) ∧
    (∀ p, json_dumps_fields (sanitize_transaction tx) = .ok p →
      be.sign_transaction p self.key = .error e →
      sign_transaction_wrapper be self tx = .error e) ∧
    (normalizeKey pk = .error e →
      account_sign_transaction_wrapper be tx pk = .error e) ∧
    (∀ kb, normalizeKey pk = .ok kb →
      json_dumps_fields (sanitize_transaction tx) = .error e →
      account_sign_transaction_wrapper be tx pk = .error e) ∧
    (∀ kb p, normalizeKey pk = .ok kb →
      json_dumps_fields (sanitize_transaction tx) = .ok p →
      be.sign_transaction p kb = .error e →
      account_sign_transaction_wrapper be tx pk = .error e) := by
  refine ⟨fun hbe => ?_, fun hk => ?_, fun kb hk hbe => ?_, fun hser => ?_,
    fun p hser hbe => ?_, fun hk => ?_, fun kb hk hser => ?_,
    fun kb p hk hser hbe => ?_, fun hser => ?_, fun p hser hbe => ?_,
    fun hk => ?_, fun kb hk hser => ?_, fun kb p hk hser hbe => ?_⟩
  · unfold sign_hash_wrapper
    rw [hbe, except_bind_error]
  · unfold account_sign_hash_wrapper
    rw [hk, except_bind_error]
  · unfold account_sign_hash_wrapper
    rw [hk, except_bind_ok, hbe, except_bind_error]
  · unfold sign_typed_data_wrapper
    rw [hser, except_bind_error]
  · unfold sign_typed_data_wrapper
    rw [hser, except_bind_ok, hbe, except_bind_error]
  · unfold account_sign_typed_data_wrapper
    rw [hk, except_bind_error]
  · unfold account_sign_typed_data_wrapper
    rw [hk, except_bind_ok, hser, except_bind_error]
  · unfold account_sign_typed_data_wrapper
    rw [hk, except_bind_ok, hser, except_bind_ok, hbe, except_bind_error]
  · unfold sign_transaction_wrapper
    rw [hser, except_bind_error]
  · unfold sign_transaction_wrapper
    rw [hser, except_bind_ok, hbe, except_bind_error]
  · unfold account_sign_transaction_wrapper
    rw [hk, except_bind_error]
  · unfold account_sign_transaction_wrapper
    rw [hk, except_bind_ok, hser, except_bind_error]
  · unfold account_sign_transaction_wrapper
    rw [hk, except_bind_ok, hser, except_bind_ok, hbe, except_bind_error]

/-- Witness for C9: a malformed-hex key error, a backend error, a
typed-data serialization error, and a transaction serialization error
each propagate unchanged through concrete wrappers. -/
theorem errors_propagate_verbatim_witness :
    account_sign_hash_wrapper constBackend [] (.str "zz") =
      .error fromhexError ∧
    sign_hash_wrapper failingBackend ⟨[1]⟩ [] =
      .error (.backendError 99) ∧
    sign_typed_data_wrapper constBackend ⟨[1]⟩ (.unserializable 0) =
      .error notSerializableError ∧
    account_sign_transaction_wrapper constBackend
      [("data", Value.vbad 0)] (.bytes [1]) = .error notSerializableError :=
  ⟨(errors_propagate_verbatim constBackend ⟨[]⟩ [] (.str "zz") (.py .jnull)
      [] fromhexError).2.1 rfl,
   (errors_propagate_verbatim failingBackend ⟨[1]⟩ [] (.bytes [])
      (.py .jnull) [] (.backendError 99)).1 rfl,
   (errors_propagate_verbatim constBackend ⟨[1]⟩ [] (.bytes [])
      (.unserializable 0) [] notSerializableError).2.2.2.1 rfl,
   (errors_propagate_verbatim constBackend ⟨[]⟩ [] (.bytes [1]) (.py .jnull)
      [("data", Value.vbad 0)]
      notSerializableError).2.2.2.2.2.2.2.2.2.2.2.1 [1] rfl rfl⟩

lemma isPySpace_eq_false_of_hex {c : Char} (h : isHexDigit c = true) :
    isPySpace c = false := by
  cases hp : isPySpace c with
  | false => rfl
  | true =>
    exfalso
    simp only [isPySpace, Bool.or_eq_true, decide_eq_true_eq] at hp
    rcases hp with ((((rfl | rfl) | rfl) | rfl) | rfl) | rfl <;>
      exact absurd h (by decide)

lemma fromhex_ok_all_hex :
    ∀ cs : List Char, (∀ c ∈ cs, isHexDigit c = true) → cs.length % 2 = 0 →
      ∃ bs, fromhex cs = .ok bs ∧ bs.length = cs.length / 2
  | [], _, _ => ⟨[], rfl, rfl⟩
  | [c], _, hl => by simp at hl
  | c1 :: c2 :: rest, h, hl => by
    have h1 := h c1 (by simp)
    have h2 := h c2 (by simp)
    have hr : ∀ c ∈ rest, isHexDigit c = true := fun c hc => h c (by simp [hc])
    have hl' : rest.length % 2 = 0 := by
      simp only [List.length_cons] at hl
      omega
    obtain ⟨bs, hbs, hlen⟩ := fromhex_ok_all_hex rest hr hl'
    refine ⟨(16 * hexVal c1 + hexVal c2) :: bs, ?_, ?_⟩
    · simp [fromhex, isPySpace_eq_false_of_hex h1, h1, h2, hbs]
    · simp only [List.length_cons, hlen]
      omega

lemma fromhex_cons_ws {c : Char} (rest : List Char)
    (h : isPySpace c = true) : fromhex (c :: rest) = fromhex rest := by
  rw [fromhex.eq_def]
  simp [h]

lemma fromhex_error_of_bad :
    ∀ (cs : List Char) (c : Char), c ∈ cs → isHexDigit c = false →
      isPySpace c = false → fromhex cs = .error fromhexError
  | [], c, hc, _, _ => absurd hc (by simp)
  | c1 :: rest, c, hc, hbad, hsp => by
    cases hws : isPySpace c1 with
    | true =>
      have hcr : c ∈ rest := by
        rcases List.mem_cons.mp hc with h | h
        · exfalso
          rw [h, hws] at hsp
          cases hsp
        · exact h
      rw [fromhex_cons_ws rest hws]
      exact fromhex_error_of_bad rest c hcr hbad hsp
    | false =>
      cases hh1 : isHexDigit c1 with
      | false => rw [fromhex.eq_def]; simp [hws, hh1]
      | true =>
        have hc1 : c ≠ c1 := by
          intro he
          rw [← he, hbad] at hh1
          cases hh1
        have hcr : c ∈ rest := by
          rcases List.mem_cons.mp hc with h | h
          · exact absurd h hc1
          · exact h
        obtain ⟨c2, rest2, rfl⟩ : ∃ c2 rest2, rest = c2 :: rest2 := by
          cases rest with
          | nil => simp at hcr
          | cons a l => exact ⟨a, l, rfl⟩
        rcases List.mem_cons.mp hcr with hcc2 | hcr2
        · rw [fromhex.eq_def]; simp [hws, hh1, ← hcc2, hbad]
        · cases hh2 : isHexDigit c2 with
          | false => rw [fromhex.eq_def]; simp [hws, hh1, hh2]
          | true =>
            have hrec := fromhex_error_of_bad rest2 c hcr2 hbad hsp
            rw [fromhex.eq_def]; simp [hws, hh1, hh2, hrec]

lemma strip0x_of_all_hex (cs : List Char)
    (h : ∀ c ∈ cs, isHexDigit c = true) : strip0x cs = cs := by
  match cs with
  | [] => rfl
  | [c] => rfl
  | c1 :: c2 :: rest =>
    cases hcond : (c1 = '0' && c2 = 'x') with
    | false => simp [strip0x, hcond]
    | true =>
      exfalso
      have h2 : c2 = 'x' := by
        rcases Bool.and_eq_true .. |>.mp hcond with ⟨_, hx⟩
        exact decide_eq_true_eq.mp hx
      have := h c2 (by simp)
      rw [h2] at this
      exact absurd this (by decide)

lemma strip0x_0x (cs : List Char) : strip0x ('0' :: 'x' :: cs) = cs := rfl

lemma normalizeKey_prefixed (H : String)
    (h : ∀ c ∈ H.data, isHexDigit c = true) :
    normalizeKey (.str ("0x" ++ H)) = normalizeKey (.str H) := by
  have hdata : ("0x" ++ H).data = '0' :: 'x' :: H.data := by
    simp [String.data_append]
  simp only [normalizeKey, hdata, strip0x_0x, strip0x_of_all_hex H.data h]

/-- C1: signing a hash through the free-function call-site with a
`0x`-prefixed 64-hex-digit key gives a result identical to signing with
the unprefixed key, and both normalize to the same 32-byte key before
reaching the backend. -/
theorem key_format_equivalence (be : RustBackend) (mh : Bytes) (H : String)
    (hlen : H.data.length = 64) (hhex : ∀ c ∈ H.data, isHexDigit c = true) :
    account_sign_hash_wrapper be mh (.str ("0x" ++ H)) =
      account_sign_hash_wrapper be mh (.str H) ∧
    ∃ kb, normalizeKey (.str ("0x" ++ H)) = .ok kb ∧
      normalizeKey (.str H) = .ok kb ∧ kb.length = 32 := by
  have hnk := normalizeKey_prefixed H hhex
  constructor
  · unfold account_sign_hash_wrapper
    rw [hnk]
  · obtain ⟨bs, hbs, hblen⟩ := fromhex_ok_all_hex H.data hhex (by rw [hlen])
    have hH : normalizeKey (.str H) = .ok bs := by
      simp [normalizeKey, strip0x_of_all_hex H.data hhex, hbs]
    exact ⟨bs, hnk.trans hH, hH, by rw [hblen, hlen]⟩

/-- Witness for C1 at the key made of 64 `a` digits. -/
theorem key_format_equivalence_witness :
    (String.mk (List.replicate 64 'a')).data.length = 64 ∧
    (∀ c ∈ (String.mk (List.replicate 64 'a')).data, isHexDigit c = true) ∧
    (account_sign_hash_wrapper constBackend []
        (.str ("0x" ++ String.mk (List.replicate 64 'a'))) =
      account_sign_hash_wrapper constBackend []
        (.str (String.mk (List.replicate 64 'a'))) ∧
     ∃ kb, normalizeKey (.str ("0x" ++ String.mk (List.replicate 64 'a'))) =
        .ok kb ∧
      normalizeKey (.str (String.mk (List.replicate 64 'a'))) = .ok kb ∧
      kb.length = 32) :=
  ⟨by decide, by decide,
   key_format_equivalence constBackend [] (String.mk (List.replicate 64 'a'))
     (by decide) (by decide)⟩

/-- Counterexample to C8 as stated: the hex string `"ab"` decodes to the
single byte `0xab` — length 1, not 32 — yet key normalization succeeds,
and the signing call reaches the backend with that 1-byte key (the
echoing backend returns it in `r`, so `r = 171` proves the key got
through).  The adapter never length-checks. -/
theorem short_key_reaches_backend :
    normalizeKey (.str "ab") = .ok [171] ∧
    account_sign_hash_wrapper keyEchoBackend [] (.str "ab") =
      .ok ⟨[], 171, 0, 27, []⟩ :=
  ⟨rfl, rfl⟩

/-- C8 (amended): a raw private-key string containing an invalid
(non-hex, non-whitespace) character after optional `0x`-stripping makes
key normalization fail with `ValueError`, and no signing call reaches
the backend with such a key; a wrong-length input that is valid hex, by
contrast, passes normalization and is left for the backend to reject
(and `bytes.fromhex` itself skips ASCII whitespace between bytes). -/
theorem invalid_hex_rejected_before_backend (be : RustBackend) (mh : Bytes)
    (s : String) (c : Char) (hc : c ∈ strip0x s.data)
    (hbad : isHexDigit c = false) (hsp : isPySpace c = false) :
    normalizeKey (.str s) = .error fromhexError ∧
    account_sign_hash_wrapper be mh (.str s) = .error fromhexError := by
  have herr : normalizeKey (.str s) = .error fromhexError := by
    simp only [normalizeKey]
    exact fromhex_error_of_bad (strip0x s.data) c hc hbad hsp
  refine ⟨herr, ?_⟩
  unfold account_sign_hash_wrapper
  rw [herr, except_bind_error]

/-- Witness for the amended C8 at the malformed key `"gg"`. -/
theorem invalid_hex_rejected_before_backend_witness :
    'g' ∈ strip0x "gg".data ∧ isHexDigit 'g' = false ∧
    isPySpace 'g' = false ∧
    (normalizeKey (.str "gg") = .error fromhexError ∧
     account_sign_hash_wrapper constBackend [] (.str "gg") =
       .error fromhexError) :=
  ⟨by decide, by decide, by decide,
   invalid_hex_rejected_before_backend constBackend [] "gg" 'g' (by decide)
     (by decide) (by decide)⟩

lemma alookup_cons {κ β : Type} [DecidableEq κ] (e : κ × β)
    (rest : List (κ × β)) (key : κ) :
    alookup (e :: rest) key =
      if e.1 = key then some e.2 else alookup rest key := rfl

lemma aset_cons {κ β : Type} [DecidableEq κ] (e : κ × β)
    (rest : List (κ × β)) (k : κ) (v : β) :
    aset (e :: rest) k v =
      (if e.1 = k then (e.1, v) else e) :: aset rest k v := rfl

lemma alookup_aset {κ β : Type} [DecidableEq κ] (t : List (κ × β)) (k : κ)
    (v : β) : alookup (aset t k v) k = (alookup t k).map fun _ => v := by
  induction t with
  | nil => rfl
  | cons e rest ih =>
    by_cases he : e.1 = k
    · rw [aset_cons, if_pos he, alookup_cons, alookup_cons]
      dsimp only
      rw [if_pos he, if_pos he]
      rfl
    · rw [aset_cons, if_neg he, alookup_cons, alookup_cons, if_neg he,
        if_neg he]
      exact ih

lemma alookup_aset_ne {κ β : Type} [DecidableEq κ] (t : List (κ × β))
    (k k' : κ) (v : β) (h : k' ≠ k) :
    alookup (aset t k v) k' = alookup t k' := by
  induction t with
  | nil => rfl
  | cons e rest ih =>
    by_cases he : e.1 = k
    · have hne : e.1 ≠ k' := by rw [he]; exact Ne.symm h
      rw [aset_cons, if_pos he, alookup_cons, alookup_cons]
      dsimp only
      rw [if_neg hne, if_neg hne]
      exact ih
    · rw [aset_cons, if_neg he, alookup_cons, alookup_cons]
      by_cases he' : e.1 = k'
      · rw [if_pos he', if_pos he']
      · rw [if_neg he', if_neg he']
        exact ih

lemma keys_aset {κ β : Type} [DecidableEq κ] (t : List (κ × β)) (k : κ)
    (v : β) : (aset t k v).map Prod.fst = t.map Prod.fst := by
  simp only [aset, List.map_map]
  apply List.map_congr_left
  intro e _
  by_cases he : e.1 = k <;> simp [he]

lemma lookup_sanitizeStep_self (d : Fields) (f : String) :
    alookup (sanitizeStep d f) f = (alookup d f).map convertVal := by
  unfold sanitizeStep
  cases h : alookup d f with
  | none => simp [h]
  | some val =>
    cases val with
    | vint n => simp [h, alookup_aset, convertVal]
    | vstr s =>
      cases hcond : (!startsWith0x s && strIsDigit s) with
      | true => simp [h, hcond, alookup_aset, convertVal]
      | false => simp [h, hcond, convertVal]
    | vother j => simp [h, convertVal]
    | vbad t => simp [h, convertVal]

lemma lookup_sanitizeStep_ne (d : Fields) (f k : String) (h : k ≠ f) :
    alookup (sanitizeStep d f) k = alookup d k := by
  unfold sanitizeStep
  cases hl : alookup d f with
  | none => rfl
  | some val =>
    cases val with
    | vint n => simp [alookup_aset_ne _ _ _ _ h]
    | vstr s =>
      cases hcond : (!startsWith0x s && strIsDigit s) with
      | true => simp [hcond, alookup_aset_ne _ _ _ _ h]
      | false => simp [hcond]
    | vother j => rfl
    | vbad t => rfl

lemma keys_sanitizeStep (d : Fields) (f : String) :
    (sanitizeStep d f).map Prod.fst = d.map Prod.fst := by
  unfold sanitizeStep
  cases alookup d f with
  | none => rfl
  | some val =>
    cases val with
    | vint n => simp [keys_aset]
    | vstr s =>
      cases hcond : (!startsWith0x s && strIsDigit s) with
      | true => simp [hcond, keys_aset]
      | false => simp [hcond]
    | vother j => rfl
    | vbad t => rfl

lemma foldl_sanitize_keys (fs : List String) (d : Fields) :
    (fs.foldl sanitizeStep d).map Prod.fst = d.map Prod.fst := by
  induction fs generalizing d with
  | nil => rfl
  | cons f fs ih => rw [List.foldl_cons, ih, keys_sanitizeStep]

lemma foldl_sanitize_lookup (fs : List String) (hnd : fs.Nodup) (d : Fields)
    (k : String) :
    alookup (fs.foldl sanitizeStep d) k =
      if k ∈ fs then (alookup d k).map convertVal else alookup d k := by
  induction fs generalizing d with
  | nil => simp
  | cons f fs ih =>
    rw [List.foldl_cons]
    rcases eq_or_ne k f with rfl | hne
    · have hf : k ∉ fs := (List.nodup_cons.mp hnd).1
      rw [ih (List.nodup_cons.mp hnd).2]
      simp [hf, lookup_sanitizeStep_self]
    · rw [ih (List.nodup_cons.mp hnd).2]
      by_cases hk : k ∈ fs <;>
        simp [hk, hne, lookup_sanitizeStep_ne d f k hne]

/-- C3: the transaction field sanitizer keeps the key set and order of
the input intact, and pointwise rewrites exactly the allow-listed
fields by `convertVal` — integers become their Python `hex` string (so
`100` becomes `"0x64"`), digit-only strings become `hex(int(s))`,
values already starting with `"0x"` stay unchanged — while every field
outside the allow-list is returned untouched whatever its type; the
function is total, so unknown fields never raise. -/
theorem sanitizer_spec (d : Fields) :
    (sanitize_transaction d).map Prod.fst = d.map Prod.fst ∧
    (∀ k : String, alookup (sanitize_transaction d) k =
      if k ∈ fields_to_hex then (alookup d k).map convertVal
      else alookup d k) ∧
    convertVal (Value.vint 100) = Value.vstr "0x64" ∧
    convertVal (Value.vstr "0x64") = Value.vstr "0x64" :=
  ⟨foldl_sanitize_keys fields_to_hex d,
   fun k => foldl_sanitize_lookup fields_to_hex (by decide) d k,
   rfl, rfl⟩

lemma storeGet_set_ne (st : Store) (i j : Nat) (d : Fields) (h : j ≠ i) :
    storeGet (storeSet st i d) j = storeGet st j := by
  simp [storeGet, storeSet, List.getD_eq_getElem?_getD,
    List.getElem?_set_ne (Ne.symm h)]

lemma storeGet_set_self (st : Store) (i : Nat) (d : Fields)
    (h : i < st.dicts.length) : storeGet (storeSet st i d) i = d := by
  simp [storeGet, storeSet, List.getD_eq_getElem?_getD,
    List.getElem?_set_self h]

lemma fold_setItem_get_ne (fs : List String) (st : Store) (i j : Nat)
    (h : j ≠ i) :
    storeGet (fs.foldl (fun s f => setItemStep s i f) st) j =
      storeGet st j := by
  induction fs generalizing st with
  | nil => rfl
  | cons f fs ih =>
    rw [List.foldl_cons, ih]
    exact storeGet_set_ne st i j _ h

lemma fold_setItem_get_self (fs : List String) (st : Store) (i : Nat)
    (h : i < st.dicts.length) :
    storeGet (fs.foldl (fun s f => setItemStep s i f) st) i =
      fs.foldl sanitizeStep (storeGet st i) := by
  induction fs generalizing st with
  | nil => rfl
  | cons f fs ih =>
    rw [List.foldl_cons, List.foldl_cons]
    have hlen : i < (setItemStep st i f).dicts.length := by
      simpa [setItemStep, storeSet] using h
    rw [ih _ hlen]
    congr 1
    exact storeGet_set_self st i _ h

/-- C7: `_sanitize_transaction` operates on a copy — after the call the
caller's dict object is exactly what it was before, the returned
reference is a different object, and that new object holds the
sanitized contents. -/
theorem sanitize_operates_on_copy (st : Store) (ref : Nat)
    (h : ref < st.dicts.length) :
    storeGet (sanitizeTransactionProg st ref).1 ref = storeGet st ref ∧
    (sanitizeTransactionProg st ref).2 ≠ ref ∧
    storeGet (sanitizeTransactionProg st ref).1
        (sanitizeTransactionProg st ref).2 =
      sanitize_transaction (storeGet st ref) := by
  unfold sanitizeTransactionProg
  dsimp only [dictCopyAlloc]
  refine ⟨?_, ?_, ?_⟩
  · rw [fold_setItem_get_ne _ _ _ _ (by omega : ref ≠ st.dicts.length)]
    simp [storeGet, List.getD_eq_getElem?_getD,
      List.getElem?_append_left h]
  · omega
  · rw [fold_setItem_get_self _ _ _
      (by simp : st.dicts.length <
        (Store.mk (st.dicts ++ [storeGet st ref])).dicts.length)]
    congr 1
    simp [storeGet, List.getD_eq_getElem?_getD,
      List.getElem?_concat_length]

/-- Witness for C7 at a one-dict store holding `value = 100`. -/
theorem sanitize_operates_on_copy_witness :
    0 < demoStore.dicts.length ∧
    (storeGet (sanitizeTransactionProg demoStore 0).1 0 =
        storeGet demoStore 0 ∧
     (sanitizeTransactionProg demoStore 0).2 ≠ 0 ∧
     storeGet (sanitizeTransactionProg demoStore 0).1
         (sanitizeTransactionProg demoStore 0).2 =
       sanitize_transaction (storeGet demoStore 0)) :=
  ⟨by decide, sanitize_operates_on_copy demoStore 0 (by decide)⟩

lemma any_eq_true_of_alookup_some {κ β : Type} [DecidableEq κ]
    {t : List (κ × β)} {k : κ} {v : β} (h : alookup t k = some v) :
    (t.any fun e => e.1 = k) = true := by
  induction t with
  | nil => cases h
  | cons e rest ih =>
    rw [alookup_cons] at h
    by_cases he : e.1 = k
    · simp [List.any_cons, he]
    · rw [if_neg he] at h
      simp [List.any_cons, ih h]

lemma alookup_none_of_any_false {κ β : Type} [DecidableEq κ]
    {t : List (κ × β)} {k : κ} (h : (t.any fun e => e.1 = k) = false) :
    alookup t k = none := by
  induction t with
  | nil => rfl
  | cons e rest ih =>
    simp only [List.any_cons, Bool.or_eq_false_iff, decide_eq_false_iff_not]
      at h
    rw [alookup_cons, if_neg h.1]
    exact ih h.2

lemma alookup_append_of_none {κ β : Type} [DecidableEq κ]
    {t : List (κ × β)} {k : κ} (u : List (κ × β))
    (h : alookup t k = none) : alookup (t ++ u) k = alookup u k := by
  induction t with
  | nil => rfl
  | cons e rest ih =>
    rw [alookup_cons] at h
    by_cases he : e.1 = k
    · rw [if_pos he] at h; cases h
    · rw [if_neg he] at h
      rw [List.cons_append, alookup_cons, if_neg he]
      exact ih h

lemma alookup_append_of_some {κ β : Type} [DecidableEq κ]
    {t : List (κ × β)} {k : κ} {v : β} (u : List (κ × β))
    (h : alookup t k = some v) : alookup (t ++ u) k = some v := by
  induction t with
  | nil => cases h
  | cons e rest ih =>
    rw [alookup_cons] at h
    by_cases he : e.1 = k
    · rw [if_pos he] at h
      rw [List.cons_append, alookup_cons, if_pos he]
      exact h
    · rw [if_neg he] at h
      rw [List.cons_append, alookup_cons, if_neg he]
      exact ih h

lemma alookup_isSome_of_any {κ β : Type} [DecidableEq κ]
    {t : List (κ × β)} {k : κ} (h : (t.any fun e => e.1 = k) = true) :
    ∃ w, alookup t k = some w := by
  induction t with
  | nil => simp at h
  | cons e rest ih =>
    by_cases he : e.1 = k
    · exact ⟨e.2, by rw [alookup_cons, if_pos he]⟩
    · simp only [List.any_cons, Bool.or_eq_true, decide_eq_true_eq] at h
      rcases h with h | h
      · exact absurd h he
      · obtain ⟨w, hw⟩ := ih h
        exact ⟨w, by rw [alookup_cons, if_neg he]; exact hw⟩

lemma alookup_aupsert_self {κ β : Type} [DecidableEq κ]
    (t : List (κ × β)) (k : κ) (v : β) :
    alookup (aupsert t k v) k = some v := by
  unfold aupsert
  cases hp : (t.any fun e => e.1 = k) with
  | true =>
    obtain ⟨w, hw⟩ := alookup_isSome_of_any hp
    simp only [if_true]
    rw [alookup_aset, hw]
    rfl
  | false =>
    simp only [Bool.false_eq_true, if_false]
    rw [alookup_append_of_none _ (alookup_none_of_any_false hp)]
    simp [alookup_cons, alookup]

lemma alookup_aupsert_ne {κ β : Type} [DecidableEq κ]
    (t : List (κ × β)) (k k' : κ) (v : β) (h : k' ≠ k) :
    alookup (aupsert t k v) k' = alookup t k' := by
  unfold aupsert
  cases hp : (t.any fun e => e.1 = k) with
  | true =>
    simp only [if_true]
    exact alookup_aset_ne t k k' v h
  | false =>
    simp only [Bool.false_eq_true, if_false]
    cases hl : alookup t k' with
    | some w => rw [alookup_append_of_some _ hl]
    | none =>
      rw [alookup_append_of_none _ hl]
      simp [alookup_cons, alookup, Ne.symm h]

lemma not_mem_keys_of_any_false {κ β : Type} [DecidableEq κ]
    {t : List (κ × β)} {k : κ} (h : (t.any fun e => e.1 = k) = false) :
    k ∉ t.map Prod.fst := by
  intro hmem
  obtain ⟨e, he, hek⟩ := List.mem_map.mp hmem
  have : (t.any fun e => e.1 = k) = true :=
    List.any_eq_true.mpr ⟨e, he, by simp [hek]⟩
  rw [this] at h
  cases h

lemma keys_aupsert_nodup {κ β : Type} [DecidableEq κ]
    {t : List (κ × β)} (k : κ) (v : β) (h : (t.map Prod.fst).Nodup) :
    ((aupsert t k v).map Prod.fst).Nodup := by
  unfold aupsert
  cases hp : (t.any fun e => e.1 = k) with
  | true =>
    simp only [if_true]
    rw [keys_aset]
    exact h
  | false =>
    simp only [Bool.false_eq_true, if_false, List.map_append,
      List.map_cons, List.map_nil]
    exact List.nodup_append.mpr ⟨h, List.nodup_singleton k,
      fun a ha hb =>
        (not_mem_keys_of_any_false hp) ((List.mem_singleton.mp hb) ▸ ha)⟩

lemma aset_id_of_not_mem {κ β : Type} [DecidableEq κ]
    {t : List (κ × β)} {k : κ} (v : β) (h : k ∉ t.map Prod.fst) :
    aset t k v = t := by
  induction t with
  | nil => rfl
  | cons e rest ih =>
    simp only [List.map_cons, List.mem_cons, not_or] at h
    rw [aset_cons, if_neg (fun he => h.1 he.symm), ih h.2]

lemma aset_id_of_nodup {κ β : Type} [DecidableEq κ]
    {t : List (κ × β)} {k : κ} {v : β} (hnd : (t.map Prod.fst).Nodup)
    (h : alookup t k = some v) : aset t k v = t := by
  induction t with
  | nil => rfl
  | cons e rest ih =>
    simp only [List.map_cons, List.nodup_cons] at hnd
    rw [alookup_cons] at h
    by_cases he : e.1 = k
    · rw [if_pos he] at h
      have hv : e.2 = v := Option.some.inj h
      rw [aset_cons, if_pos he, aset_id_of_not_mem v (he ▸ hnd.1), ← hv]
    · rw [if_neg he] at h
      rw [aset_cons, if_neg he, ih hnd.2 h]

lemma aupsert_id {κ β : Type} [DecidableEq κ]
    {t : List (κ × β)} {k : κ} {v : β} (hnd : (t.map Prod.fst).Nodup)
    (h : alookup t k = some v) : aupsert t k v = t := by
  unfold aupsert
  rw [any_eq_true_of_alookup_some h]
  simp only [if_true]
  exact aset_id_of_nodup hnd h

lemma fold_install_lookup_of_not_mem
    (bs : List ((String × String) × Handler)) (t : DispatchTable)
    (k : String × String) (h : ∀ b ∈ bs, b.1 ≠ k) :
    alookup
      (bs.foldl (fun acc b => setattrTable acc b.1.1 b.1.2 b.2) t) k =
      alookup t k := by
  induction bs generalizing t with
  | nil => rfl
  | cons b bs ih =>
    rw [List.foldl_cons, ih _ fun b' hb' => h b' (List.mem_cons_of_mem b hb')]
    exact alookup_aupsert_ne t b.1 k b.2 (Ne.symm (h b (List.mem_cons_self b bs)))

lemma fold_install_lookup (bs : List ((String × String) × Handler))
    (hnd : (bs.map Prod.fst).Nodup) (t : DispatchTable) :
    ∀ b ∈ bs,
      alookup
        (bs.foldl (fun acc b => setattrTable acc b.1.1 b.1.2 b.2) t) b.1 =
        some b.2 := by
  induction bs generalizing t with
  | nil => intro b hb; cases hb
  | cons b bs ih =>
    simp only [List.map_cons, List.nodup_cons] at hnd
    intro b' hb'
    rw [List.foldl_cons]
    rcases List.mem_cons.mp hb' with rfl | hmem
    · rw [fold_install_lookup_of_not_mem bs _ b'.1
        (fun c hc hck => hnd.1 (hck ▸ List.mem_map_of_mem Prod.fst hc))]
      exact alookup_aupsert_self t b'.1 b'.2
    · exact ih hnd.2 _ b' hmem

lemma fold_install_nodup (bs : List ((String × String) × Handler))
    (t : DispatchTable) (hnd : (t.map Prod.fst).Nodup) :
    (((bs.foldl (fun acc b => setattrTable acc b.1.1 b.1.2 b.2) t)).map
      Prod.fst).Nodup := by
  induction bs generalizing t with
  | nil => exact hnd
  | cons b bs ih =>
    rw [List.foldl_cons]
    exact ih _ (keys_aupsert_nodup b.1 b.2 hnd)

lemma fold_install_id (bs : List ((String × String) × Handler))
    (t : DispatchTable) (hnd : (t.map Prod.fst).Nodup)
    (h : ∀ b ∈ bs, alookup t b.1 = some b.2) :
    bs.foldl (fun acc b => setattrTable acc b.1.1 b.1.2 b.2) t = t := by
  induction bs with
  | nil => rfl
  | cons b bs ih =>
    rw [List.foldl_cons]
    have hb : aupsert t b.1 b.2 = t :=
      aupsert_id hnd (h b (List.mem_cons_self b bs))
    rw [show setattrTable t b.1.1 b.1.2 b.2 = t from hb]
    exact ih fun b' hb' => h b' (List.mem_cons_of_mem b hb')

/-- C2: installing the patch twice leaves the dispatch state exactly as
after one install — `patch_eth_account` is idempotent on the dispatch
table, the table keeps one binding per (class, attribute) slot, and each
of the six call-sites holds exactly its module-level replacement
function (a constant, so no layered double-wrapping can occur). -/
theorem patch_install_idempotent (t : DispatchTable)
    (hnd : (t.map Prod.fst).Nodup) :
    patch_eth_account (patch_eth_account t) = patch_eth_account t ∧
    ((patch_eth_account t).map Prod.fst).Nodup ∧
    ∀ b ∈ patchBindings, alookup (patch_eth_account t) b.1 = some b.2 := by
  have hbnd : (patchBindings.map Prod.fst).Nodup := by decide
  have hnd' := fold_install_nodup patchBindings t hnd
  have hlook := fold_install_lookup patchBindings hbnd t
  exact ⟨fold_install_id patchBindings _ hnd' hlook, hnd', hlook⟩

/-- Witness for C2 starting from the empty dispatch table. -/
theorem patch_install_idempotent_witness :
    ((([] : DispatchTable)).map Prod.fst).Nodup ∧
    (patch_eth_account (patch_eth_account []) = patch_eth_account [] ∧
     ((patch_eth_account ([] : DispatchTable)).map Prod.fst).Nodup ∧
     ∀ b ∈ patchBindings,
       alookup (patch_eth_account ([] : DispatchTable)) b.1 = some b.2) :=
  ⟨by decide, patch_install_idempotent [] (by decide)⟩

end Ferrite
